import Mathlib

/-!
Shallow embedding of the low-light image enhancement pipeline from
`src/utils/imageProcessing.ts` of the image-enhancer repository.

The pixel buffer is an RGBA byte buffer: a function from flat sample index
to a byte value.  A sample index `idx` decodes as pixel `idx / 4` and
channel `idx % 4`; pixel `p` of a `w`-wide image sits at `(x, y) =
(p % w, p / w)`.  Every store into the JavaScript `Uint8ClampedArray`
clamps its argument to `[0, 255]` after rounding, modelled by `clamp255`.

Each of the four stages of the pipeline reads all neighbourhood values
from a snapshot of its input buffer (the source copies `data` into
`tempData` before mutating), so every stage is a pure function of its
input buffer and is modelled pointwise.

Arithmetic on rationals is kept in `ℚ` (stages one and four only use
field operations), while the stages that use `Math.sqrt` and `Math.exp`
(stages two and three) are modelled over `ℝ` with `Real.sqrt` and
`Real.exp`.  The edge map of the denoising stage is a `Float32Array` in
the source, so its store additionally models the binary32 quantisation
(`f32round`), which decides the behaviour at the `0.3` skip threshold.
-/

/-- An RGBA byte buffer: flat sample index to stored value. -/
abbrev Buf : Type := ℕ → ℕ

/-- A buffer is valid when every sample is a byte. -/
def Valid (buf : Buf) : Prop := ∀ i, buf i ≤ 255

/-- Semantics of a store into a `Uint8ClampedArray`: clamp to `[0, 255]`. -/
def clamp255 (z : ℤ) : ℕ := (min 255 (max 0 z)).toNat

/-- Read sample of channel `c` of the pixel at signed coordinates
`(x, y)` in a `w`-wide image, i.e. `data[(y * width + x) * 4 + c]`. -/
def samp (buf : Buf) (w : ℕ) (x y : ℤ) (c : ℕ) : ℕ :=
  buf (((y * (w : ℤ) + x) * 4).toNat + c)

/-!  ## Stage 1: Zero-DCE inspired curve enhancement (`enhanceZeroDCE`)

`alpha = 0.8`, `iterations = 3`.  Each iteration stores
`Math.min(255, (r + alpha * r * (1 - r)) * 255)` per colour channel,
where `r` is the current value normalised to `[0, 1]`; the store
quantises.  On the final iteration an extra local-contrast pass updates
interior pixels from the mean of their eight neighbours (computed on a
snapshot taken after the third curve pass), with contrast factor `0.2`.
-/

/-- One quantised application of the curve
`LE(x) = x + alpha * x * (1 - x)` with `alpha = 0.8`, as stored by
`data[i] = Math.min(255, enhancedR * 255)`. -/
def curveQ (v : ℕ) : ℕ :=
  clamp255 (round (min 255
    (((v : ℚ) / 255 + 0.8 * ((v : ℚ) / 255) * (1 - (v : ℚ) / 255)) * 255)))

/-- Three quantised curve iterations (`iterations = 3`). -/
def curve3 (v : ℕ) : ℕ := curveQ (curveQ (curveQ v))

/-- Guarded neighbour sum of the local-contrast pass: the centre
`(dx, dy) = (0, 0)` is skipped and out-of-bounds neighbours contribute
nothing.  Neighbour values come from the post-curve snapshot. -/
def dceCtrSum (buf : Buf) (w h : ℕ) (x y : ℕ) (c : ℕ) : ℚ :=
  ∑ dy ∈ Finset.Icc (-1 : ℤ) 1, ∑ dx ∈ Finset.Icc (-1 : ℤ) 1,
    if ¬(dx = 0 ∧ dy = 0) ∧ 0 ≤ (x : ℤ) + dx ∧ (x : ℤ) + dx < (w : ℤ) ∧
        0 ≤ (y : ℤ) + dy ∧ (y : ℤ) + dy < (h : ℤ) then
      (curve3 (samp buf w ((x : ℤ) + dx) ((y : ℤ) + dy) c) : ℚ)
    else 0

/-- Number of neighbours included by the local-contrast pass. -/
def dceCtrCount (w h : ℕ) (x y : ℕ) : ℕ :=
  ∑ dy ∈ Finset.Icc (-1 : ℤ) 1, ∑ dx ∈ Finset.Icc (-1 : ℤ) 1,
    if ¬(dx = 0 ∧ dy = 0) ∧ 0 ≤ (x : ℤ) + dx ∧ (x : ℤ) + dx < (w : ℤ) ∧
        0 ≤ (y : ℤ) + dy ∧ (y : ℤ) + dy < (h : ℤ) then 1 else 0

/-- `avg = count > 0 ? sum / count : tempData[idx + c]`. -/
def dceCtrAvg (buf : Buf) (w h : ℕ) (x y : ℕ) (c : ℕ) : ℚ :=
  if 0 < dceCtrCount w h x y then
    dceCtrSum buf w h x y c / (dceCtrCount w h x y : ℚ)
  else (curve3 (samp buf w x y c) : ℚ)

/-- Stage 1, pointwise.  RGB samples get three curve iterations; interior
pixels additionally get the local-contrast adjustment
`Math.min(255, Math.max(0, current + 0.2 * (current - avg)))`; the alpha
channel and out-of-range indices pass through. -/
def enhanceZeroDCE (buf : Buf) (w h : ℕ) : Buf := fun idx =>
  if idx % 4 < 3 ∧ idx / 4 < w * h then
    if 1 ≤ idx / 4 % w ∧ idx / 4 % w + 1 < w ∧
        1 ≤ idx / 4 / w ∧ idx / 4 / w + 1 < h then
      clamp255 (round (min 255 (max 0
        ((curve3 (buf idx) : ℚ) +
          0.2 * ((curve3 (buf idx) : ℚ) -
            dceCtrAvg buf w h (idx / 4 % w) (idx / 4 / w) (idx % 4))))))
    else curve3 (buf idx)
  else buf idx

/-!  ## Stage 4: tone mapping (`toneMapping`)

Whole-image statistics first; the Reinhard remap runs only when
`avgBrightness > 100 || maxBrightness > 240`.  With `exposure = 1` and
`gamma = 1`, `Math.pow(toneMapped, 1 / gamma) = toneMapped`.
-/

/-- Per-pixel brightness `(r + g + b) / 3`. -/
def brightness (buf : Buf) (p : ℕ) : ℚ :=
  ((buf (4 * p) : ℚ) + (buf (4 * p + 1) : ℚ) + (buf (4 * p + 2) : ℚ)) / 3

/-- Accumulated brightness over all `n = w * h` pixels. -/
def totalBrightness (buf : Buf) (n : ℕ) : ℚ :=
  ∑ p ∈ Finset.range n, brightness buf p

/-- Running maximum of pixel brightness, starting from `0` as in the
source (`let maxBrightness = 0`). -/
def maxBrightness (buf : Buf) (n : ℕ) : ℚ :=
  (List.range n).foldl (fun m p => max m (brightness buf p)) 0

/-- `avgBrightness = totalBrightness / (data.length / 4)`. -/
def avgBrightness (buf : Buf) (n : ℕ) : ℚ :=
  totalBrightness buf n / (n : ℚ)

/-- `exposure = 1.0` in the source. -/
def exposure : ℚ := 1

/-- Reinhard operator on a normalised sample:
`exposureAdjusted / (1 + exposureAdjusted)`.  Since `gamma = 1.0` the
gamma correction `Math.pow(x, 1 / gamma)` is the identity and is elided. -/
def toneMapped (v : ℕ) : ℚ :=
  ((v : ℚ) / 255 * exposure) / (1 + (v : ℚ) / 255 * exposure)

/-- Remapped sample `Math.min(255, Math.max(0, Math.round(g * 255)))`. -/
def reinhardVal (v : ℕ) : ℕ :=
  clamp255 (min 255 (max 0 (round (toneMapped v * 255))))

/-- Stage 4, pointwise.  The brightness guard is evaluated on the whole
input buffer; when it fires every in-range RGB sample is remapped. -/
def toneMapping (buf : Buf) (w h : ℕ) : Buf := fun idx =>
  if 100 < avgBrightness buf (w * h) ∨ 240 < maxBrightness buf (w * h) then
    if idx % 4 < 3 ∧ idx / 4 < w * h then reinhardVal (buf idx) else buf idx
  else buf idx

/-!  ## Stage 2: GAN-inspired colour restoration and detail enhancement
(`enhanceWithGAN`)

Step one adjusts saturation per pixel from the snapshot `tempData` of the
stage input.  Step two sharpens every interior pixel with the fixed 3x3
kernel `[[-1,-1,-1],[-1,9,-1],[-1,-1,-1]]`, again reading only from
`tempData` (the snapshot of the stage input, not the saturated values),
and blends `0.7 * sum + (1 - 0.7) * tempData[idx + c]`.  Interior pixels
are therefore overwritten from the snapshot and only border pixels keep
the step-one values.
-/

noncomputable section

/-- `luminance = 0.299 * r + 0.587 * g + 0.114 * b`. -/
def luminance (buf : Buf) (p : ℕ) : ℝ :=
  0.299 * (buf (4 * p) : ℝ) + 0.587 * (buf (4 * p + 1) : ℝ) +
    0.114 * (buf (4 * p + 2) : ℝ)

/-- `saturation = Math.sqrt((r - L) ** 2 + (g - L) ** 2 + (b - L) ** 2)`. -/
def saturation (buf : Buf) (p : ℕ) : ℝ :=
  Real.sqrt (((buf (4 * p) : ℝ) - luminance buf p) ^ 2 +
    ((buf (4 * p + 1) : ℝ) - luminance buf p) ^ 2 +
    ((buf (4 * p + 2) : ℝ) - luminance buf p) ^ 2)

/-- `saturationFactor = Math.max(0.1, 0.3 * (1 - saturation / 100))`. -/
def satFactor (buf : Buf) (p : ℕ) : ℝ :=
  max 0.1 (0.3 * (1 - saturation buf p / 100))

/-- Step-one store
`Math.min(255, Math.max(0, v + (v - luminance) * saturationFactor))`. -/
def satVal (buf : Buf) (p c : ℕ) : ℕ :=
  clamp255 (round (min 255 (max 0 ((buf (4 * p + c) : ℝ) +
    ((buf (4 * p + c) : ℝ) - luminance buf p) * satFactor buf p))))

/-- The fixed sharpening kernel of step two. -/
def kernel : List (List ℝ) := [[-1, -1, -1], [-1, 9, -1], [-1, -1, -1]]

/-- Convolution sum of step two at an interior pixel:
`sum += tempData[(ny * width + nx) * 4 + c] * kernel[ky][kx]` over
`ky, kx ∈ {0, 1, 2}` with `nx = x + kx - 1`, `ny = y + ky - 1`, guarded
by the bounds check of the source. -/
def ganConv (buf : Buf) (w h : ℕ) (x y c : ℕ) : ℝ :=
  ∑ ky ∈ Finset.range 3, ∑ kx ∈ Finset.range 3,
    if 0 ≤ (x : ℤ) + kx - 1 ∧ (x : ℤ) + kx - 1 < (w : ℤ) ∧
        0 ≤ (y : ℤ) + ky - 1 ∧ (y : ℤ) + ky - 1 < (h : ℤ) then
      (samp buf w ((x : ℤ) + kx - 1) ((y : ℤ) + ky - 1) c : ℝ) *
        (kernel.getD ky []).getD kx 0
    else 0

/-- Stage 2, pointwise.  Interior RGB samples get the sharpening blend
`Math.min(255, Math.max(0, 0.7 * sum + (1 - 0.7) * tempData[idx + c]))`
computed from the stage input; border RGB samples keep the step-one
saturation value; alpha and out-of-range indices pass through. -/
def enhanceWithGAN (buf : Buf) (w h : ℕ) : Buf := fun idx =>
  if idx % 4 < 3 ∧ idx / 4 < w * h then
    if 1 ≤ idx / 4 % w ∧ idx / 4 % w + 1 < w ∧
        1 ≤ idx / 4 / w ∧ idx / 4 / w + 1 < h then
      clamp255 (round (min 255 (max 0
        (0.7 * ganConv buf w h (idx / 4 % w) (idx / 4 / w) (idx % 4) +
          (1 - 0.7) * (buf idx : ℝ)))))
    else satVal buf (idx / 4) (idx % 4)
  else buf idx

/-!  ## Stage 3: edge-aware denoising (`intelligentDenoising`)

An edge map is computed for interior pixels with a Sobel pair summed over
the RGB channels and normalised by `1200`, then stored into a
`Float32Array` (modelled by `f32round`); border pixels keep the zero
initial value of that array.  A pixel whose stored edge value exceeds
`0.3` is skipped.  Otherwise each channel is replaced by a blend of a
bilateral-style weighted neighbourhood average and the original value.

The model compares against the exact rational `3 / 10` where the source
compares against the float64 literal `0.3` (which is slightly below
`3 / 10`); since no binary32 value lies between the float64 literal and
`3 / 10`, the branch taken agrees with the source at every value the
`Float32Array` can hold.
-/

/-- Horizontal Sobel response summed over the three colour channels. -/
def sobelX (buf : Buf) (w : ℕ) (x y : ℕ) : ℤ :=
  ∑ c ∈ Finset.range 3,
    (-(samp buf w ((x : ℤ) - 1) ((y : ℤ) - 1) c : ℤ) +
      (samp buf w ((x : ℤ) + 1) ((y : ℤ) - 1) c : ℤ) +
      -(2 * (samp buf w ((x : ℤ) - 1) (y : ℤ) c : ℤ)) +
      2 * (samp buf w ((x : ℤ) + 1) (y : ℤ) c : ℤ) +
      -(samp buf w ((x : ℤ) - 1) ((y : ℤ) + 1) c : ℤ) +
      (samp buf w ((x : ℤ) + 1) ((y : ℤ) + 1) c : ℤ))

/-- Vertical Sobel response summed over the three colour channels. -/
def sobelY (buf : Buf) (w : ℕ) (x y : ℕ) : ℤ :=
  ∑ c ∈ Finset.range 3,
    (-(samp buf w ((x : ℤ) - 1) ((y : ℤ) - 1) c : ℤ) +
      -(2 * (samp buf w (x : ℤ) ((y : ℤ) - 1) c : ℤ)) +
      -(samp buf w ((x : ℤ) + 1) ((y : ℤ) - 1) c : ℤ) +
      (samp buf w ((x : ℤ) - 1) ((y : ℤ) + 1) c : ℤ) +
      2 * (samp buf w (x : ℤ) ((y : ℤ) + 1) c : ℤ) +
      (samp buf w ((x : ℤ) + 1) ((y : ℤ) + 1) c : ℤ))

/-- `sumX * sumX + sumY * sumY`. -/
def edgeSq (buf : Buf) (w : ℕ) (x y : ℕ) : ℤ :=
  sobelX buf w x y * sobelX buf w x y + sobelY buf w x y * sobelY buf w x y

/-- Round to nearest integer with ties to even, the rounding of IEEE-754
arithmetic: at a midpoint `k + 1/2` the even one of `k` and `k + 1` is
chosen, elsewhere this is the ordinary nearest integer. -/
def rne (x : ℝ) : ℤ := if Int.fract x = 1 / 2 then 2 * round (x / 2) else round x

/-- Spacing of binary32 values at `x`: the significand has 24 bits, so in
the binade `[2 ^ e, 2 ^ (e + 1))` representable values are `2 ^ (e - 23)`
apart.  Subnormal and overflow clamping are not modelled: the edge map
only ever stores values in `[0, 1]`, and the least positive value it can
receive, `1 / 1200`, is far above the subnormal range. -/
def f32ulp (x : ℝ) : ℝ := 2 ^ (⌊Real.logb 2 x⌋ - 23)

/-- Semantics of a store into a `Float32Array`: the float64 value is
rounded to the nearest binary32 value. -/
def f32round (x : ℝ) : ℝ := rne (x / f32ulp x) * f32ulp x

/-- Edge magnitude
`Math.min(1, Math.sqrt(sumX * sumX + sumY * sumY) / 1200)` for interior
pixels, quantised by the store into the `Float32Array` edge map; border
pixels keep the zero initial value of the edge map. -/
def edgeVal (buf : Buf) (w h : ℕ) (x y : ℕ) : ℝ :=
  if 1 ≤ x ∧ x + 1 < w ∧ 1 ≤ y ∧ y + 1 < h then
    f32round (min 1 (Real.sqrt ((edgeSq buf w x y : ℝ)) / 1200))
  else 0

/-- Adaptive radius `Math.max(1, Math.floor(2 * (1 - edgeValue)))`. -/
def kernelRadius (e : ℝ) : ℤ := max 1 ⌊2 * (1 - e)⌋

/-- Blend factor `Math.max(0.3, 1 - edgeValue * 2)`. -/
def blendFactor (e : ℝ) : ℝ := max 0.3 (1 - e * 2)

/-- `spatialWeight = 1 / (1 + Math.sqrt(kx * kx + ky * ky))`. -/
def spatialWeight (kx ky : ℤ) : ℝ :=
  1 / (1 + Real.sqrt ((kx * kx + ky * ky : ℤ) : ℝ))

/-- `intensityWeight = Math.exp(-pixelDiff / 30)` where `pixelDiff` is the
absolute difference between the neighbour and centre samples. -/
def intensityWeight (a b : ℕ) : ℝ :=
  Real.exp (-(|(a : ℝ) - (b : ℝ)|) / 30)

/-- Accumulated neighbourhood weight of the bilateral filter. -/
def weightN (buf : Buf) (w h : ℕ) (x y c : ℕ) (r : ℤ) : ℝ :=
  ∑ ky ∈ Finset.Icc (-r) r, ∑ kx ∈ Finset.Icc (-r) r,
    if 0 ≤ (x : ℤ) + kx ∧ (x : ℤ) + kx < (w : ℤ) ∧
        0 ≤ (y : ℤ) + ky ∧ (y : ℤ) + ky < (h : ℤ) then
      spatialWeight kx ky *
        intensityWeight (samp buf w ((x : ℤ) + kx) ((y : ℤ) + ky) c)
          (samp buf w (x : ℤ) (y : ℤ) c)
    else 0

/-- Accumulated weighted neighbourhood sum of the bilateral filter. -/
def sumN (buf : Buf) (w h : ℕ) (x y c : ℕ) (r : ℤ) : ℝ :=
  ∑ ky ∈ Finset.Icc (-r) r, ∑ kx ∈ Finset.Icc (-r) r,
    if 0 ≤ (x : ℤ) + kx ∧ (x : ℤ) + kx < (w : ℤ) ∧
        0 ≤ (y : ℤ) + ky ∧ (y : ℤ) + ky < (h : ℤ) then
      (samp buf w ((x : ℤ) + kx) ((y : ℤ) + ky) c : ℝ) *
        (spatialWeight kx ky *
          intensityWeight (samp buf w ((x : ℤ) + kx) ((y : ℤ) + ky) c)
            (samp buf w (x : ℤ) (y : ℤ) c))
    else 0

/-- `filteredValue = weight > 0 ? sum / weight : tempData[idx + c]`. -/
def filteredValue (buf : Buf) (w h : ℕ) (x y c : ℕ) (r : ℤ) : ℝ :=
  if 0 < weightN buf w h x y c r then
    sumN buf w h x y c r / weightN buf w h x y c r
  else (samp buf w (x : ℤ) (y : ℤ) c : ℝ)

/-- Stage 3, pointwise.  Only interior RGB samples whose edge value does
not exceed `0.3` are rewritten, by
`Math.round(filteredValue * blendFactor + tempData[idx + c] * (1 - blendFactor))`. -/
def intelligentDenoising (buf : Buf) (w h : ℕ) : Buf := fun idx =>
  if idx % 4 < 3 ∧ 1 ≤ idx / 4 % w ∧ idx / 4 % w + 1 < w ∧
      1 ≤ idx / 4 / w ∧ idx / 4 / w + 1 < h then
    if 0.3 < edgeVal buf w h (idx / 4 % w) (idx / 4 / w) then buf idx
    else
      clamp255 (round
        (filteredValue buf w h (idx / 4 % w) (idx / 4 / w) (idx % 4)
            (kernelRadius (edgeVal buf w h (idx / 4 % w) (idx / 4 / w))) *
          blendFactor (edgeVal buf w h (idx / 4 % w) (idx / 4 / w)) +
          (buf idx : ℝ) *
            (1 - blendFactor (edgeVal buf w h (idx / 4 % w) (idx / 4 / w)))))
  else buf idx

/-!  ## The full pipeline (`enhanceImage`) -/

/-- Stage order of `enhanceImage`: Zero-DCE curve enhancement, then
GAN-inspired refinement, then denoising, then tone mapping. -/
def enhanceImage (buf : Buf) (w h : ℕ) : Buf :=
  toneMapping
    (intelligentDenoising (enhanceWithGAN (enhanceZeroDCE buf w h) w h) w h)
    w h

end

/-!  ## Basic lemmas about the store and index decoding -/

lemma clamp255_le (z : ℤ) : clamp255 z ≤ 255 := by
  unfold clamp255; omega

lemma clamp255_le_of_le {z : ℤ} {k : ℕ} (h : z ≤ (k : ℤ)) : clamp255 z ≤ k := by
  unfold clamp255; omega

lemma one_le_clamp255 {z : ℤ} (h : 1 ≤ z) : 1 ≤ clamp255 z := by
  unfold clamp255; omega

lemma curveQ_le (v : ℕ) : curveQ v ≤ 255 := clamp255_le _

lemma curve3_le (v : ℕ) : curve3 v ≤ 255 := curveQ_le _

lemma reinhardVal_le (v : ℕ) : reinhardVal v ≤ 255 := clamp255_le _

lemma satVal_le (buf : Buf) (p c : ℕ) : satVal buf p c ≤ 255 := clamp255_le _

/-!  ## Alpha samples pass through every stage

Every loop of the source writes only channel offsets `i`, `i + 1`,
`i + 2` of a pixel base `i`; channel `3` (alpha) is never stored to.
-/

lemma enhanceZeroDCE_alpha (buf : Buf) (w h i : ℕ) (hi : i % 4 = 3) :
    enhanceZeroDCE buf w h i = buf i := by
  simp [enhanceZeroDCE, hi]

lemma enhanceWithGAN_alpha (buf : Buf) (w h i : ℕ) (hi : i % 4 = 3) :
    enhanceWithGAN buf w h i = buf i := by
  simp [enhanceWithGAN, hi]

lemma intelligentDenoising_alpha (buf : Buf) (w h i : ℕ) (hi : i % 4 = 3) :
    intelligentDenoising buf w h i = buf i := by
  simp [intelligentDenoising, hi]

lemma toneMapping_alpha (buf : Buf) (w h i : ℕ) (hi : i % 4 = 3) :
    toneMapping buf w h i = buf i := by
  unfold toneMapping
  split
  · simp [hi]
  · rfl

/-!  ## Every stage stores only clamped bytes -/

lemma enhanceZeroDCE_valid {buf : Buf} (w h : ℕ) (hv : Valid buf) :
    Valid (enhanceZeroDCE buf w h) := by
  intro i
  simp only [enhanceZeroDCE]
  split_ifs
  · exact clamp255_le _
  · exact curve3_le _
  · exact hv i

lemma enhanceWithGAN_valid {buf : Buf} (w h : ℕ) (hv : Valid buf) :
    Valid (enhanceWithGAN buf w h) := by
  intro i
  simp only [enhanceWithGAN]
  split_ifs
  · exact clamp255_le _
  · exact satVal_le _ _ _
  · exact hv i

lemma intelligentDenoising_valid {buf : Buf} (w h : ℕ) (hv : Valid buf) :
    Valid (intelligentDenoising buf w h) := by
  intro i
  simp only [intelligentDenoising]
  split_ifs
  · exact hv i
  · exact clamp255_le _
  · exact hv i

lemma toneMapping_valid {buf : Buf} (w h : ℕ) (hv : Valid buf) :
    Valid (toneMapping buf w h) := by
  intro i
  simp only [toneMapping]
  split_ifs
  · exact reinhardVal_le _
  · exact hv i
  · exact hv i

/-- Claim C1: for every input buffer, the alpha channel (sample index with
`i % 4 = 3`) is bit-identical before and after each of the four stages and
after the full pipeline: no stage writes any alpha sample. -/
theorem alpha_unchanged (buf : Buf) (w h i : ℕ) (hi : i % 4 = 3) :
    enhanceZeroDCE buf w h i = buf i ∧
    enhanceWithGAN buf w h i = buf i ∧
    intelligentDenoising buf w h i = buf i ∧
    toneMapping buf w h i = buf i ∧
    enhanceImage buf w h i = buf i := by
  refine ⟨enhanceZeroDCE_alpha buf w h i hi, enhanceWithGAN_alpha buf w h i hi,
    intelligentDenoising_alpha buf w h i hi, toneMapping_alpha buf w h i hi, ?_⟩
  unfold enhanceImage
  rw [toneMapping_alpha _ w h i hi, intelligentDenoising_alpha _ w h i hi,
    enhanceWithGAN_alpha _ w h i hi, enhanceZeroDCE_alpha buf w h i hi]

/-- Witness for C1 at a concrete buffer and alpha index. -/
theorem alpha_unchanged_witness :
    enhanceZeroDCE (fun _ => 9) 2 2 3 = 9 ∧
    enhanceWithGAN (fun _ => 9) 2 2 3 = 9 ∧
    intelligentDenoising (fun _ => 9) 2 2 3 = 9 ∧
    toneMapping (fun _ => 9) 2 2 3 = 9 ∧
    enhanceImage (fun _ => 9) 2 2 3 = 9 :=
  alpha_unchanged (fun _ => 9) 2 2 3 (by decide)

/-- Claim C2: starting from a valid buffer, after each of the four stages
every sample value lies in `[0, 255]` (values are naturals, so only the
upper bound is informative): every store is clamped, and pass-through
samples keep their valid input value.  The composed pipeline output is
valid as well. -/
theorem stages_preserve_range (buf : Buf) (w h : ℕ) (hv : Valid buf) :
    Valid (enhanceZeroDCE buf w h) ∧
    Valid (enhanceWithGAN buf w h) ∧
    Valid (intelligentDenoising buf w h) ∧
    Valid (toneMapping buf w h) ∧
    Valid (enhanceImage buf w h) :=
  ⟨enhanceZeroDCE_valid w h hv, enhanceWithGAN_valid w h hv,
    intelligentDenoising_valid w h hv, toneMapping_valid w h hv,
    toneMapping_valid w h (intelligentDenoising_valid w h
      (enhanceWithGAN_valid w h (enhanceZeroDCE_valid w h hv)))⟩

/-- Witness for C2 at a concrete valid buffer. -/
theorem stages_preserve_range_witness :
    Valid (fun _ => 200) ∧ Valid (enhanceImage (fun _ => 200) 2 2) :=
  ⟨fun _ => by norm_num,
    (stages_preserve_range (fun _ => 200) 2 2 (fun _ => by norm_num)).2.2.2.2⟩

/-- Claim C3: when the average brightness is at most 100 and the maximum
brightness is at most 240, the tone-mapping stage returns its input buffer
byte-identically; the remap only applies when one of the two thresholds is
exceeded. -/
theorem toneMapping_noop_of_dark (buf : Buf) (w h : ℕ)
    (h1 : avgBrightness buf (w * h) ≤ 100)
    (h2 : maxBrightness buf (w * h) ≤ 240) :
    ∀ i, toneMapping buf w h i = buf i := by
  intro i
  unfold toneMapping
  rw [if_neg]
  simp only [not_or, not_lt]
  exact ⟨h1, h2⟩

/-- Witness for C3 at an all-black one-pixel buffer. -/
theorem toneMapping_noop_of_dark_witness :
    avgBrightness (fun _ => 0) (1 * 1) ≤ 100 ∧
    maxBrightness (fun _ => 0) (1 * 1) ≤ 240 ∧
    toneMapping (fun _ => 0) 1 1 2 = 0 :=
  ⟨by norm_num [avgBrightness, totalBrightness, brightness,
      Finset.sum_range_succ],
    by norm_num [maxBrightness, brightness, List.range_succ],
    toneMapping_noop_of_dark (fun _ => 0) 1 1
      (by norm_num [avgBrightness, totalBrightness, brightness,
        Finset.sum_range_succ])
      (by norm_num [maxBrightness, brightness, List.range_succ]) 2⟩

lemma reinhardVal_le_128 (v : ℕ) (hv : v ≤ 255) : reinhardVal v ≤ 128 := by
  unfold reinhardVal
  apply clamp255_le_of_le
  have hn0 : (0 : ℚ) ≤ (v : ℚ) / 255 := by positivity
  have hn1 : (v : ℚ) / 255 ≤ 1 := by
    rw [div_le_one (by norm_num)]
    exact_mod_cast hv
  have htm : toneMapped v ≤ 1 / 2 := by
    unfold toneMapped exposure
    rw [mul_one, div_le_div_iff₀ (by linarith) (by norm_num)]
    linarith
  have hround : round (toneMapped v * 255) ≤ 128 := by
    rw [round_eq]
    have hfl := Int.floor_le_floor (α := ℚ)
      (show toneMapped v * 255 + 1 / 2 ≤ 128 by linarith)
    simpa using hfl
  omega

/-- Claim C10: whenever the tone-mapping remap is triggered, every
in-range RGB output sample is at most 128, because with exposure 1 and
gamma 1 the Reinhard operator maps a byte into `[0, 127.5]`. -/
theorem toneMapping_remap_le_128 (buf : Buf) (w h i : ℕ) (hv : Valid buf)
    (ht : 100 < avgBrightness buf (w * h) ∨ 240 < maxBrightness buf (w * h))
    (hc : i % 4 < 3) (hp : i / 4 < w * h) :
    toneMapping buf w h i ≤ 128 := by
  unfold toneMapping
  rw [if_pos ht, if_pos ⟨hc, hp⟩]
  exact reinhardVal_le_128 _ (hv i)

/-- Witness for C10 at an all-white one-pixel buffer. -/
theorem toneMapping_remap_le_128_witness :
    (100 < avgBrightness (fun _ => 255) (1 * 1) ∨
      240 < maxBrightness (fun _ => 255) (1 * 1)) ∧
    toneMapping (fun _ => 255) 1 1 0 ≤ 128 :=
  ⟨Or.inl (by norm_num [avgBrightness, totalBrightness, brightness,
      Finset.sum_range_succ]),
    toneMapping_remap_le_128 (fun _ => 255) 1 1 0 (fun _ => by norm_num)
      (Or.inl (by norm_num [avgBrightness, totalBrightness, brightness,
        Finset.sum_range_succ]))
      (by decide) (by decide)⟩

/-!  ## Index decoding -/

lemma decode_mod4 (w x y c : ℕ) (hc : c < 4) : ((y * w + x) * 4 + c) % 4 = c := by
  omega

lemma decode_x (w x y c : ℕ) (hc : c < 4) (hx : x < w) :
    ((y * w + x) * 4 + c) / 4 % w = x := by
  have hp : ((y * w + x) * 4 + c) / 4 = y * w + x := by omega
  rw [hp, Nat.mul_comm y w, Nat.mul_add_mod]
  exact Nat.mod_eq_of_lt hx

lemma decode_y (w x y c : ℕ) (hc : c < 4) (hx : x < w) :
    ((y * w + x) * 4 + c) / 4 / w = y := by
  have hp : ((y * w + x) * 4 + c) / 4 = y * w + x := by omega
  rw [hp, Nat.mul_comm y w, Nat.mul_add_div (by omega), Nat.div_eq_of_lt hx,
    Nat.add_zero]

lemma decode_div4 (w x y c : ℕ) (hc : c < 4) :
    ((y * w + x) * 4 + c) / 4 = y * w + x := by
  omega

lemma pix_lt (w h x y : ℕ) (hx : x < w) (hy : y < h) : y * w + x < w * h :=
  calc y * w + x < y * w + w := by omega
  _ = (y + 1) * w := by ring
  _ ≤ h * w := Nat.mul_le_mul_right w (by omega)
  _ = w * h := Nat.mul_comm h w

/-!  ## The strong-edge skip of the denoising stage -/

lemma edgeVal_interior {buf : Buf} {w h x y : ℕ}
    (he : (0.3 : ℝ) < edgeVal buf w h x y) :
    1 ≤ x ∧ x + 1 < w ∧ 1 ≤ y ∧ y + 1 < h := by
  by_contra hcon
  rw [edgeVal, if_neg hcon] at he
  norm_num at he

lemma denoise_skip (buf : Buf) (w h x y c : ℕ) (hc : c < 3)
    (he : (0.3 : ℝ) < edgeVal buf w h x y) :
    intelligentDenoising buf w h ((y * w + x) * 4 + c) =
      buf ((y * w + x) * 4 + c) := by
  obtain ⟨hx1, hx2, hy1, hy2⟩ := edgeVal_interior he
  have hxw : x < w := by omega
  simp only [intelligentDenoising]
  rw [decode_mod4 w x y c (by omega), decode_x w x y c (by omega) hxw,
    decode_y w x y c (by omega) hxw]
  rw [if_pos ⟨hc, hx1, hx2, hy1, hy2⟩, if_pos he]

/-!  ## The threshold `0.3` is not representable in binary32

The skip test of the source is the strict comparison `edgeValue > 0.3`,
but `edgeValue` has been stored into a `Float32Array`, and `3 / 10` is
not a binary32 value (its reduced denominator has the factor 5), so a
stored edge value can never equal `0.3`: a stored value that is at least
`0.3` is strictly greater, and the pixel is skipped.
-/

lemma not_dyadic_three_tenths (k e : ℤ) (he : e ≤ 0) :
    (k : ℝ) * 2 ^ (e - 23) ≠ 3 / 10 := by
  intro heq
  have hnn : (0 : ℤ) ≤ 23 - e := by omega
  have hpow : ((2 : ℝ) ^ ((23 - e).toNat)) = (2 : ℝ) ^ (23 - e : ℤ) := by
    rw [← zpow_natCast, Int.toNat_of_nonneg hnn]
  have hone : (2 : ℝ) ^ (e - 23 : ℤ) * 2 ^ (23 - e : ℤ) = 1 := by
    rw [← zpow_add₀ (by norm_num : (2 : ℝ) ≠ 0)]
    norm_num
  have hk : (k : ℝ) = 3 / 10 * 2 ^ (23 - e : ℤ) :=
    calc (k : ℝ) = (k : ℝ) * ((2 : ℝ) ^ (e - 23 : ℤ) * 2 ^ (23 - e : ℤ)) := by
          rw [hone, mul_one]
    _ = (k : ℝ) * 2 ^ (e - 23 : ℤ) * 2 ^ (23 - e : ℤ) := by ring
    _ = 3 / 10 * 2 ^ (23 - e : ℤ) := by rw [heq]
  have hZ : (10 * k : ℤ) = 3 * 2 ^ ((23 - e).toNat) := by
    have h10 : ((10 * k : ℤ) : ℝ) = ((3 * 2 ^ ((23 - e).toNat) : ℤ) : ℝ) := by
      push_cast
      rw [hpow, hk]
      ring
    exact_mod_cast h10
  have h5 : (5 : ℤ) ∣ 10 * k := ⟨2 * k, by ring⟩
  rw [hZ] at h5
  have hp5 : Prime (5 : ℤ) := by norm_num
  rcases hp5.2.2 _ _ h5 with h3 | hpow2
  · omega
  · have h2 := hp5.dvd_of_dvd_pow hpow2
    omega

lemma rne_intCast (n : ℤ) : rne ((n : ℝ)) = n := by
  unfold rne
  rw [Int.fract_intCast]
  norm_num [round_intCast]

lemma f32round_one : f32round 1 = 1 := by
  have h1 : f32ulp 1 = 2 ^ (-23 : ℤ) := by
    unfold f32ulp
    rw [Real.logb_one]
    norm_num
  have h2 : (1 : ℝ) / (2 : ℝ) ^ (-23 : ℤ) = ((8388608 : ℤ) : ℝ) := by
    rw [zpow_neg, one_div, inv_inv]
    norm_num
  unfold f32round
  rw [h1, h2, rne_intCast]
  rw [zpow_neg]
  norm_num

lemma f32round_ne_threshold {x : ℝ} (h0 : 0 ≤ x) (h1 : x ≤ 1) :
    f32round x ≠ 0.3 := by
  have he0 : ⌊Real.logb 2 x⌋ ≤ 0 := by
    rcases eq_or_lt_of_le h0 with hx0 | hx0
    · rw [← hx0, Real.logb_zero]
      simp
    · exact Int.floor_nonpos (Real.logb_nonpos (by norm_num) h0 h1)
  intro heq
  exact not_dyadic_three_tenths (rne (x / f32ulp x)) ⌊Real.logb 2 x⌋ he0
    (by rw [show (3 / 10 : ℝ) = 0.3 by norm_num]; exact heq)

/-- Claim C4: the denoising stage leaves the RGB samples of a pixel
unchanged whenever its computed edge magnitude is at least `0.3`.  The
source skips via the strict `edgeValue > 0.3`, but the edge value read
back from the `Float32Array` can never equal `0.3` because `3 / 10` is
not a binary32 value: a stored edge magnitude that is at least `0.3` is
strictly greater than `0.3`, so the pixel is passed through unmodified. -/
theorem denoise_preserves_strong_edges (buf : Buf) (w h x y c : ℕ)
    (hc : c < 3) (he : (0.3 : ℝ) ≤ edgeVal buf w h x y) :
    intelligentDenoising buf w h ((y * w + x) * 4 + c) =
      buf ((y * w + x) * 4 + c) := by
  apply denoise_skip buf w h x y c hc
  rcases lt_or_eq_of_le he with hlt | heq
  · exact hlt
  · exfalso
    by_cases hint : 1 ≤ x ∧ x + 1 < w ∧ 1 ≤ y ∧ y + 1 < h
    · unfold edgeVal at heq
      rw [if_pos hint] at heq
      have h0 : (0 : ℝ) ≤ min 1 (Real.sqrt ((edgeSq buf w x y : ℝ)) / 1200) :=
        le_min (by norm_num) (by positivity)
      have h1 : min 1 (Real.sqrt ((edgeSq buf w x y : ℝ)) / 1200) ≤ 1 :=
        min_le_left _ _
      exact f32round_ne_threshold h0 h1 heq.symm
    · unfold edgeVal at heq
      rw [if_neg hint] at heq
      norm_num at heq

/-- Claim C5: denoising strength is monotonically nonincreasing in edge
magnitude: the filter radius and the blend weight given to the filtered
estimate are both antitone in the edge value, and pixels above the skip
threshold receive no filtering at all. -/
theorem denoise_strength_antitone (e1 e2 : ℝ) (h0 : 0 ≤ e1) (h12 : e1 ≤ e2)
    (h1 : e2 ≤ 1) :
    kernelRadius e2 ≤ kernelRadius e1 ∧ blendFactor e2 ≤ blendFactor e1 ∧
    ∀ (buf : Buf) (w h x y c : ℕ), c < 3 →
      (0.3 : ℝ) < edgeVal buf w h x y →
      intelligentDenoising buf w h ((y * w + x) * 4 + c) =
        buf ((y * w + x) * 4 + c) := by
  refine ⟨max_le_max le_rfl (Int.floor_le_floor (by linarith)),
    max_le_max le_rfl (by linarith),
    fun buf w h x y c hc he => denoise_skip buf w h x y c hc he⟩

/-- Witness for C5 at concrete edge magnitudes. -/
theorem denoise_strength_antitone_witness :
    (0 : ℝ) ≤ 0.1 ∧ (0.1 : ℝ) ≤ 0.25 ∧ (0.25 : ℝ) ≤ 1 ∧
    kernelRadius 0.25 ≤ kernelRadius 0.1 ∧
    blendFactor 0.25 ≤ blendFactor 0.1 :=
  ⟨by norm_num, by norm_num, by norm_num,
    (denoise_strength_antitone 0.1 0.25 (by norm_num) (by norm_num)
      (by norm_num)).1,
    (denoise_strength_antitone 0.1 0.25 (by norm_num) (by norm_num)
      (by norm_num)).2.1⟩

/-!  ## Positivity of the bilateral weight sum -/

lemma spatialWeight_nonneg (kx ky : ℤ) : 0 ≤ spatialWeight kx ky := by
  unfold spatialWeight
  have := Real.sqrt_nonneg ((kx * kx + ky * ky : ℤ) : ℝ)
  positivity

lemma intensityWeight_pos (a b : ℕ) : 0 < intensityWeight a b :=
  Real.exp_pos _

lemma spatialWeight_zero : spatialWeight 0 0 = 1 := by
  unfold spatialWeight
  norm_num

lemma intensityWeight_self (a : ℕ) : intensityWeight a a = 1 := by
  unfold intensityWeight
  simp

lemma one_le_weightN (buf : Buf) (w h x y c : ℕ) (r : ℤ) (hr : 0 ≤ r)
    (hx : x < w) (hy : y < h) : 1 ≤ weightN buf w h x y c r := by
  have hmem : (0 : ℤ) ∈ Finset.Icc (-r) r := by
    rw [Finset.mem_Icc]
    omega
  have hnn : ∀ (ky kx : ℤ),
      0 ≤ (if 0 ≤ (x : ℤ) + kx ∧ (x : ℤ) + kx < (w : ℤ) ∧
          0 ≤ (y : ℤ) + ky ∧ (y : ℤ) + ky < (h : ℤ) then
        spatialWeight kx ky *
          intensityWeight (samp buf w ((x : ℤ) + kx) ((y : ℤ) + ky) c)
            (samp buf w (x : ℤ) (y : ℤ) c)
      else 0) := by
    intro ky kx
    split
    · exact mul_nonneg (spatialWeight_nonneg kx ky)
        (le_of_lt (intensityWeight_pos _ _))
    · exact le_refl 0
  have hterm : (1 : ℝ) ≤
      (if 0 ≤ (x : ℤ) + (0 : ℤ) ∧ (x : ℤ) + (0 : ℤ) < (w : ℤ) ∧
          0 ≤ (y : ℤ) + (0 : ℤ) ∧ (y : ℤ) + (0 : ℤ) < (h : ℤ) then
        spatialWeight 0 0 *
          intensityWeight (samp buf w ((x : ℤ) + (0 : ℤ)) ((y : ℤ) + (0 : ℤ)) c)
            (samp buf w (x : ℤ) (y : ℤ) c)
      else 0) := by
    rw [if_pos (by omega)]
    simp only [add_zero]
    rw [spatialWeight_zero, intensityWeight_self, mul_one]
  unfold weightN
  have hinner : (1 : ℝ) ≤
      ∑ kx ∈ Finset.Icc (-r) r,
        (if 0 ≤ (x : ℤ) + kx ∧ (x : ℤ) + kx < (w : ℤ) ∧
            0 ≤ (y : ℤ) + (0 : ℤ) ∧ (y : ℤ) + (0 : ℤ) < (h : ℤ) then
          spatialWeight kx 0 *
            intensityWeight (samp buf w ((x : ℤ) + kx) ((y : ℤ) + (0 : ℤ)) c)
              (samp buf w (x : ℤ) (y : ℤ) c)
        else 0) :=
    le_trans hterm (Finset.single_le_sum (fun j _ => hnn 0 j) hmem)
  refine le_trans hinner (Finset.single_le_sum
    (f := fun ky => ∑ kx ∈ Finset.Icc (-r) r,
      if 0 ≤ (x : ℤ) + kx ∧ (x : ℤ) + kx < (w : ℤ) ∧
          0 ≤ (y : ℤ) + ky ∧ (y : ℤ) + ky < (h : ℤ) then
        spatialWeight kx ky *
          intensityWeight (samp buf w ((x : ℤ) + kx) ((y : ℤ) + ky) c)
            (samp buf w (x : ℤ) (y : ℤ) c)
      else 0)
    (fun i _ => Finset.sum_nonneg fun j _ => hnn i j) hmem)

/-- Claim C9: at every interior pixel the accumulated bilateral weight is
at least the centre contribution `1`, so the `weight > 0` guard of the
source always takes the division branch and the keep-original fallback is
unreachable (the division is nevertheless defensively guarded). -/
theorem denoise_weight_positive (buf : Buf) (w h x y c : ℕ)
    (hx1 : 1 ≤ x) (hx2 : x + 1 < w) (hy1 : 1 ≤ y) (hy2 : y + 1 < h) :
    1 ≤ weightN buf w h x y c (kernelRadius (edgeVal buf w h x y)) ∧
    filteredValue buf w h x y c (kernelRadius (edgeVal buf w h x y)) =
      sumN buf w h x y c (kernelRadius (edgeVal buf w h x y)) /
        weightN buf w h x y c (kernelRadius (edgeVal buf w h x y)) := by
  have hr : (0 : ℤ) ≤ kernelRadius (edgeVal buf w h x y) :=
    le_trans (by norm_num) (le_max_left 1 _)
  have hW := one_le_weightN buf w h x y c _ hr (by omega) (by omega)
  exact ⟨hW, by unfold filteredValue; rw [if_pos (by linarith)]⟩

/-- Witness for C9 at a concrete interior pixel. -/
theorem denoise_weight_positive_witness :
    1 ≤ weightN (fun _ => 0) 3 3 1 1 0
        (kernelRadius (edgeVal (fun _ => 0) 3 3 1 1)) ∧
    filteredValue (fun _ => 0) 3 3 1 1 0
        (kernelRadius (edgeVal (fun _ => 0) 3 3 1 1)) =
      sumN (fun _ => 0) 3 3 1 1 0
          (kernelRadius (edgeVal (fun _ => 0) 3 3 1 1)) /
        weightN (fun _ => 0) 3 3 1 1 0
          (kernelRadius (edgeVal (fun _ => 0) 3 3 1 1)) :=
  denoise_weight_positive (fun _ => 0) 3 3 1 1 0 (by decide) (by decide)
    (by decide) (by decide)

/-!  ## The filtered branch of the denoising stage -/

lemma denoise_filtered_eq (buf : Buf) (w h x y c : ℕ) (hc : c < 3)
    (hx1 : 1 ≤ x) (hx2 : x + 1 < w) (hy1 : 1 ≤ y) (hy2 : y + 1 < h)
    (he : ¬ (0.3 : ℝ) < edgeVal buf w h x y) :
    intelligentDenoising buf w h ((y * w + x) * 4 + c) =
      clamp255 (round
        (filteredValue buf w h x y c (kernelRadius (edgeVal buf w h x y)) *
          blendFactor (edgeVal buf w h x y) +
          (buf ((y * w + x) * 4 + c) : ℝ) *
            (1 - blendFactor (edgeVal buf w h x y)))) := by
  have hxw : x < w := by omega
  simp only [intelligentDenoising]
  rw [decode_mod4 w x y c (by omega), decode_x w x y c (by omega) hxw,
    decode_y w x y c (by omega) hxw]
  rw [if_pos ⟨hc, hx1, hx2, hy1, hy2⟩, if_neg he]

/-- Claim C8 (counterexample): at the edge threshold `0.3` itself the
blend factor toward the filtered estimate is `0.4`, not at its `0.3`
floor, so a pixel filtered there retains only 60 percent of its original
value, refuting the claim that near-threshold pixels retain at least
70 percent. -/
theorem blend_retention_fails :
    blendFactor 0.3 = 0.4 ∧ ¬((0.7 : ℝ) ≤ 1 - blendFactor 0.3) := by
  have h : blendFactor 0.3 = 0.4 := by
    unfold blendFactor
    rw [show (1 : ℝ) - 0.3 * 2 = 0.4 by norm_num,
      max_eq_right (by norm_num : (0.3 : ℝ) ≤ 0.4)]
  exact ⟨h, by rw [h]; norm_num⟩

/-- Claim C8 (amended): for every filtered pixel (edge magnitude at most
`0.3`) the final value is the convex blend
`round(filtered * b + original * (1 - b))` with blend factor
`b = max(0.3, 1 - 2e) = 1 - 2e ∈ [0.4, 1]`, so a filtered pixel retains
at most 60 percent of its original value; the `0.3` floor is never
attained on the filtered range. -/
theorem blendFactor_filtered_range (e : ℝ) (h0 : 0 ≤ e) (h3 : e ≤ 0.3) :
    blendFactor e = 1 - e * 2 ∧ 0.4 ≤ blendFactor e ∧ blendFactor e ≤ 1 ∧
    1 - blendFactor e ≤ 0.6 ∧
    ∀ (buf : Buf) (w h x y c : ℕ), c < 3 → 1 ≤ x → x + 1 < w → 1 ≤ y →
      y + 1 < h → ¬ (0.3 : ℝ) < edgeVal buf w h x y →
      intelligentDenoising buf w h ((y * w + x) * 4 + c) =
        clamp255 (round
          (filteredValue buf w h x y c (kernelRadius (edgeVal buf w h x y)) *
            blendFactor (edgeVal buf w h x y) +
            (buf ((y * w + x) * 4 + c) : ℝ) *
              (1 - blendFactor (edgeVal buf w h x y)))) := by
  have heq : blendFactor e = 1 - e * 2 :=
    max_eq_right (by linarith : (0.3 : ℝ) ≤ 1 - e * 2)
  refine ⟨heq, by rw [heq]; linarith, by rw [heq]; linarith,
    by rw [heq]; linarith, fun buf w h x y c hc hx1 hx2 hy1 hy2 he =>
      denoise_filtered_eq buf w h x y c hc hx1 hx2 hy1 hy2 he⟩

/-- Witness for the amended C8 at a concrete edge magnitude. -/
theorem blendFactor_filtered_range_witness :
    (0 : ℝ) ≤ 0.1 ∧ (0.1 : ℝ) ≤ 0.3 ∧ blendFactor 0.1 = 1 - 0.1 * 2 ∧
    (0.4 : ℝ) ≤ blendFactor 0.1 :=
  ⟨by norm_num, by norm_num,
    (blendFactor_filtered_range 0.1 (by norm_num) (by norm_num)).1,
    (blendFactor_filtered_range 0.1 (by norm_num) (by norm_num)).2.1⟩

/-!  ## Claim C6: the curve stage versus a single curve application -/

lemma curveQ_128 : curveQ 128 = 179 := by
  norm_num [curveQ, clamp255, round_eq]; decide

lemma curveQ_179 : curveQ 179 = 222 := by
  norm_num [curveQ, clamp255, round_eq]; decide

lemma curveQ_222 : curveQ 222 = 245 := by
  norm_num [curveQ, clamp255, round_eq]; decide

lemma curve3_128 : curve3 128 = 245 := by
  rw [curve3, curveQ_128, curveQ_179, curveQ_222]

/-- Definition following the words of claim C6 (the specification side of
the refinement): a single application of the curve, namely normalise the
sample to `[0, 1]`, compute `x + 0.8 * x * (1 - x)`, convert back to
`[0, 255]` and clamp. -/
def specCurveOnce (v : ℕ) : ℕ :=
  clamp255 (round
    (((v : ℚ) / 255 + 0.8 * ((v : ℚ) / 255) * (1 - (v : ℚ) / 255)) * 255))

/-- A one-pixel buffer with red sample 128. -/
def b6 : Buf := fun idx => if idx = 0 then 128 else 0

/-- Claim C6 (counterexample): on a one-pixel buffer with red sample 128
the curve-enhancement stage outputs 245, while a single application of
the curve gives 179: the stage applies the quantised curve three times,
not once. -/
theorem dce_not_single_curve :
    enhanceZeroDCE b6 1 1 0 = 245 ∧ specCurveOnce (b6 0) = 179 ∧
    enhanceZeroDCE b6 1 1 0 ≠ specCurveOnce (b6 0) := by
  have h1 : enhanceZeroDCE b6 1 1 0 = curve3 (b6 0) := by
    simp only [enhanceZeroDCE]
    norm_num
  have hb : b6 0 = 128 := rfl
  have h2 : specCurveOnce (b6 0) = 179 := by
    rw [hb]
    norm_num [specCurveOnce, clamp255, round_eq]; decide
  have h2n : specCurveOnce 128 = 179 := by rw [← hb]; exact h2
  refine ⟨by rw [h1, hb, curve3_128], h2, ?_⟩
  rw [h1, hb, curve3_128, h2n]
  decide

lemma samp_natCast (buf : Buf) (w x y c : ℕ) :
    samp buf w (x : ℤ) (y : ℤ) c = buf ((y * w + x) * 4 + c) := rfl

/-- Unguarded eight-neighbour sum of triple-curve values, following the
amended claim C6 (for interior pixels all eight neighbours are in range
and the centre is excluded). -/
def nbSumQ8 (buf : Buf) (w : ℕ) (x y c : ℕ) : ℚ :=
  ∑ dy ∈ Finset.Icc (-1 : ℤ) 1, ∑ dx ∈ Finset.Icc (-1 : ℤ) 1,
    if ¬(dx = 0 ∧ dy = 0) then
      (curve3 (samp buf w ((x : ℤ) + dx) ((y : ℤ) + dy) c) : ℚ)
    else 0

/-- Interior-pixel value following the amended claim C6: three quantised
curve applications, then the local-contrast push away from the mean of
the eight neighbouring triple-curve values. -/
def curve3Contrast (buf : Buf) (w : ℕ) (x y c : ℕ) : ℕ :=
  clamp255 (round (min 255 (max 0
    ((curve3 (samp buf w (x : ℤ) (y : ℤ) c) : ℚ) +
      0.2 * ((curve3 (samp buf w (x : ℤ) (y : ℤ) c) : ℚ) -
        nbSumQ8 buf w x y c / 8)))))

lemma dceCtrCount_interior (w h x y : ℕ) (hx1 : 1 ≤ x) (hx2 : x + 1 < w)
    (hy1 : 1 ≤ y) (hy2 : y + 1 < h) : dceCtrCount w h x y = 8 := by
  have hstep : dceCtrCount w h x y =
      ∑ dy ∈ Finset.Icc (-1 : ℤ) 1, ∑ dx ∈ Finset.Icc (-1 : ℤ) 1,
        (if ¬(dx = 0 ∧ dy = 0) then 1 else 0) := by
    unfold dceCtrCount
    refine Finset.sum_congr rfl fun dy hdy => Finset.sum_congr rfl fun dx hdx => ?_
    rw [Finset.mem_Icc] at hdy hdx
    by_cases hcen : dx = 0 ∧ dy = 0
    · simp [hcen]
    · rw [if_pos ⟨hcen, by omega, by omega, by omega, by omega⟩, if_pos hcen]
  rw [hstep]
  decide

lemma dceCtrSum_interior (buf : Buf) (w h x y c : ℕ) (hx1 : 1 ≤ x)
    (hx2 : x + 1 < w) (hy1 : 1 ≤ y) (hy2 : y + 1 < h) :
    dceCtrSum buf w h x y c = nbSumQ8 buf w x y c := by
  unfold dceCtrSum nbSumQ8
  refine Finset.sum_congr rfl fun dy hdy => Finset.sum_congr rfl fun dx hdx => ?_
  rw [Finset.mem_Icc] at hdy hdx
  by_cases hcen : dx = 0 ∧ dy = 0
  · simp [hcen]
  · rw [if_pos ⟨hcen, by omega, by omega, by omega, by omega⟩, if_pos hcen]

/-- Claim C6 (amended): for every in-range RGB sample the output of the
curve-enhancement stage equals three iterated applications of the
quantised curve (each converted back to a byte between iterations),
followed, for interior pixels only, by the local-contrast adjustment
against the mean of the eight neighbouring triple-curve values. -/
theorem dce_eq_triple_curve (buf : Buf) (w h x y c : ℕ) (hc : c < 3)
    (hx : x < w) (hy : y < h) :
    enhanceZeroDCE buf w h ((y * w + x) * 4 + c) =
      if 1 ≤ x ∧ x + 1 < w ∧ 1 ≤ y ∧ y + 1 < h then
        curve3Contrast buf w x y c
      else curve3 (buf ((y * w + x) * 4 + c)) := by
  simp only [enhanceZeroDCE]
  rw [decode_mod4 w x y c (by omega), decode_x w x y c (by omega) hx,
    decode_y w x y c (by omega) hx, decode_div4 w x y c (by omega)]
  rw [if_pos ⟨hc, pix_lt w h x y hx hy⟩]
  by_cases hint : 1 ≤ x ∧ x + 1 < w ∧ 1 ≤ y ∧ y + 1 < h
  · rw [if_pos hint, if_pos hint]
    obtain ⟨hx1, hx2, hy1, hy2⟩ := hint
    unfold curve3Contrast dceCtrAvg
    rw [samp_natCast, dceCtrCount_interior w h x y hx1 hx2 hy1 hy2,
      dceCtrSum_interior buf w h x y c hx1 hx2 hy1 hy2, if_pos (by norm_num)]
    norm_num
  · rw [if_neg hint, if_neg hint]

/-- Witness for the amended C6 at a concrete one-pixel buffer. -/
theorem dce_eq_triple_curve_witness :
    enhanceZeroDCE b6 1 1 ((0 * 1 + 0) * 4 + 0) =
      if 1 ≤ 0 ∧ 0 + 1 < 1 ∧ 1 ≤ 0 ∧ 0 + 1 < 1 then
        curve3Contrast b6 1 0 0 0
      else curve3 (b6 ((0 * 1 + 0) * 4 + 0)) :=
  dce_eq_triple_curve b6 1 1 0 0 0 (by decide) (by decide) (by decide)

/-!  ## Claim C7: the sharpening step has a fixed kernel -/

/-- Unguarded sum of the eight ring neighbours around an interior pixel
(the specification side of the amended claim C7), indexed like the
convolution loop of the source. -/
noncomputable def nbSum8 (buf : Buf) (w : ℕ) (x y c : ℕ) : ℝ :=
  ∑ ky ∈ Finset.range 3, ∑ kx ∈ Finset.range 3,
    if ky = 1 ∧ kx = 1 then 0
    else (samp buf w ((x : ℤ) + kx - 1) ((y : ℤ) + ky - 1) c : ℝ)

lemma ganConv_interior (buf : Buf) (w h x y c : ℕ) (hx1 : 1 ≤ x)
    (hx2 : x + 1 < w) (hy1 : 1 ≤ y) (hy2 : y + 1 < h) :
    ganConv buf w h x y c =
      9 * (samp buf w (x : ℤ) (y : ℤ) c : ℝ) - nbSum8 buf w x y c := by
  have hclean : ganConv buf w h x y c =
      ∑ ky ∈ Finset.range 3, ∑ kx ∈ Finset.range 3,
        (samp buf w ((x : ℤ) + kx - 1) ((y : ℤ) + ky - 1) c : ℝ) *
          (kernel.getD ky []).getD kx 0 := by
    unfold ganConv
    refine Finset.sum_congr rfl fun ky hky => Finset.sum_congr rfl fun kx hkx => ?_
    rw [Finset.mem_range] at hky hkx
    rw [if_pos]
    refine ⟨by omega, by omega, by omega, by omega⟩
  rw [hclean]
  unfold nbSum8
  simp only [Finset.sum_range_succ, Finset.sum_range_zero, kernel]
  norm_num
  ring

/-- Claim C7 (amended): the sharpening applied by the detail-refinement
step is governed by the fixed kernel `[[-1,-1,-1],[-1,9,-1],[-1,-1,-1]]`
blended 70/30 with the snapshot value, which for every interior pixel
amounts to the constant unsharp gain `v + 5.6 * (v - ringAverage)`
independent of any local-variance estimate (and in particular not scaled
within a 0.5x to 2.0x range). -/
theorem gan_sharpen_constant_gain (buf : Buf) (w h x y c : ℕ) (hc : c < 3)
    (hx1 : 1 ≤ x) (hx2 : x + 1 < w) (hy1 : 1 ≤ y) (hy2 : y + 1 < h) :
    enhanceWithGAN buf w h ((y * w + x) * 4 + c) =
      clamp255 (round (min 255 (max 0
        ((buf ((y * w + x) * 4 + c) : ℝ) +
          5.6 * ((buf ((y * w + x) * 4 + c) : ℝ) -
            nbSum8 buf w x y c / 8))))) := by
  have hxw : x < w := by omega
  simp only [enhanceWithGAN]
  rw [decode_mod4 w x y c (by omega), decode_x w x y c (by omega) hxw,
    decode_y w x y c (by omega) hxw, decode_div4 w x y c (by omega)]
  rw [if_pos ⟨hc, pix_lt w h x y hxw (by omega)⟩,
    if_pos ⟨hx1, hx2, hy1, hy2⟩]
  rw [ganConv_interior buf w h x y c hx1 hx2 hy1 hy2, samp_natCast]
  rw [show (0.7 : ℝ) * (9 * (buf ((y * w + x) * 4 + c) : ℝ) -
      nbSum8 buf w x y c) + (1 - 0.7) * (buf ((y * w + x) * 4 + c) : ℝ) =
      (buf ((y * w + x) * 4 + c) : ℝ) +
        5.6 * ((buf ((y * w + x) * 4 + c) : ℝ) - nbSum8 buf w x y c / 8) from
    by ring]

/-- A 3x3 buffer whose red channel is 100 at the centre and 90 on the
eight surrounding pixels. -/
def b7 : Buf := fun idx =>
  if idx = 16 then 100 else if idx % 4 = 0 ∧ idx < 36 then 90 else 0

/-- Witness for the amended C7 at the buffer `b7`. -/
theorem gan_sharpen_constant_gain_witness :
    enhanceWithGAN b7 3 3 ((1 * 3 + 1) * 4 + 0) =
      clamp255 (round (min 255 (max 0
        ((b7 ((1 * 3 + 1) * 4 + 0) : ℝ) +
          5.6 * ((b7 ((1 * 3 + 1) * 4 + 0) : ℝ) - nbSum8 b7 3 1 1 0 / 8))))) :=
  gan_sharpen_constant_gain b7 3 3 1 1 0 (by decide) (by decide) (by decide)
    (by decide) (by decide)

lemma nbSum8_b7 : nbSum8 b7 3 1 1 0 = 720 := by
  unfold nbSum8
  simp only [Finset.sum_range_succ, Finset.sum_range_zero]
  norm_num [samp, b7]
  simp
  norm_num

/-- Claim C7 (counterexample): on the buffer `b7` the centre pixel has
ring average 90 and value 100, and the sharpening step outputs 156: the
deviation from the snapshot value is amplified by 5.6, outside the
claimed fixed scale range of 0.5x to 2.0x (it exceeds twice the distance
between the centre value and its neighbourhood average). -/
theorem gan_sharpen_exceeds_bound :
    enhanceWithGAN b7 3 3 16 = 156 ∧
    (b7 16 : ℝ) = 100 ∧ nbSum8 b7 3 1 1 0 / 8 = 90 ∧
    ¬(|(enhanceWithGAN b7 3 3 16 : ℝ) - (b7 16 : ℝ)| ≤
        2 * |(b7 16 : ℝ) - nbSum8 b7 3 1 1 0 / 8|) := by
  have hb : (b7 16 : ℝ) = 100 := by norm_num [b7]
  have h90 : nbSum8 b7 3 1 1 0 / 8 = 90 := by rw [nbSum8_b7]; norm_num
  have hmain := gan_sharpen_constant_gain b7 3 3 1 1 0 (by decide) (by decide)
    (by decide) (by decide) (by decide)
  rw [show ((1 * 3 + 1) * 4 + 0 : ℕ) = 16 by norm_num] at hmain
  rw [hb, h90] at hmain
  have hval : clamp255 (round (min 255 (max 0 ((100 : ℝ) + 5.6 * (100 - 90))))) = 156 := by
    rw [show ((100 : ℝ) + 5.6 * (100 - 90)) = 156 by norm_num]
    rw [max_eq_right (by norm_num : (0 : ℝ) ≤ 156),
      min_eq_right (by norm_num : (156 : ℝ) ≤ 255)]
    rw [show round (156 : ℝ) = 156 by rw [round_eq]; norm_num]
    rfl
  have hout : enhanceWithGAN b7 3 3 16 = 156 := hmain.trans hval
  refine ⟨hout, hb, h90, ?_⟩
  rw [hout, hb, h90]
  rw [show ((156 : ℕ) : ℝ) = 156 by norm_num]
  rw [show (156 : ℝ) - 100 = 56 by norm_num, show (100 : ℝ) - 90 = 10 by norm_num,
    abs_of_pos (show (0 : ℝ) < 56 by norm_num),
    abs_of_pos (show (0 : ℝ) < 10 by norm_num)]
  norm_num

/-!  ## Witness buffer for claim C4 -/

/-- A 3x3 buffer whose three colour channels are 255 on the column
`x = 2` and zero elsewhere: the Sobel response at the centre pixel is
`(3060, 0)`, and the `min` clips the edge magnitude to exactly 1. -/
def bW : Buf := fun idx =>
  if idx % 4 < 3 ∧ idx / 4 % 3 = 2 ∧ idx < 36 then 255 else 0

lemma edgeSq_bW : edgeSq bW 3 1 1 = 9363600 := by decide

lemma edgeVal_bW : edgeVal bW 3 3 1 1 = 1 := by
  unfold edgeVal
  rw [if_pos (by omega : 1 ≤ 1 ∧ 1 + 1 < 3 ∧ 1 ≤ 1 ∧ 1 + 1 < 3)]
  rw [edgeSq_bW, show ((9363600 : ℤ) : ℝ) = 3060 ^ 2 by norm_num,
    Real.sqrt_sq (by norm_num : (0 : ℝ) ≤ 3060),
    show (3060 : ℝ) / 1200 = 2.55 by norm_num,
    min_eq_left (by norm_num : (1 : ℝ) ≤ 2.55)]
  exact f32round_one

/-- Witness for C4 at a concrete saturated edge. -/
theorem denoise_preserves_strong_edges_witness :
    (0.3 : ℝ) ≤ edgeVal bW 3 3 1 1 ∧
    intelligentDenoising bW 3 3 ((1 * 3 + 1) * 4 + 0) =
      bW ((1 * 3 + 1) * 4 + 0) :=
  ⟨by rw [edgeVal_bW]; norm_num,
    denoise_preserves_strong_edges bW 3 3 1 1 0 (by decide)
      (by rw [edgeVal_bW]; norm_num)⟩
